import Mathlib

/-!
Verification development for the temu-amazon-frontend repository.

Two subsystems appear below.

* `Crawler`: the multi-channel harvesting/classification/storage core that the
  repository documents (its README, `src/unnamed/part_000`, lists
  `channel_manager.py`, `filters.py`, `high_risk_categories.py`,
  `proxy_manager.py`, `db_storage.py`, `multi_channel_crawler.py`).  Those
  Python files themselves are not part of the checked-in sources, so every
  definition in this namespace is modelled from the specification text and is
  marked as such in its doc comment.

* `Dashboard`: browser-side logic that is present in the sources —
  `src/js/analysis.js` (mock-product generation and recommendation tiers) and
  the inline script of the selection-results page (`src/unnamed/part_003`:
  table sorting and field-visibility toggling).  Definitions in this namespace
  are direct translations of that JavaScript.
-/

namespace Crawler

/-- Modelled from the spec: condition tag of a harvested listing
(new / like-new / renewed / used, nullable at the record level). -/
inductive Condition
  | new
  | likeNew
  | renewed
  | used
deriving DecidableEq, Repr

/-- Modelled from the spec: one harvested listing (`ProductRecord`, spec §3).
The crawler source (`data_sources.py` etc.) is not in the repository, so the
fields follow the spec's data model.  Weight is stored in integer milligrams
so that the spec's 453.6-gram threshold is exact; rating is stored in tenths
(0–50).  Nullable fields are `Option`s. -/
structure ProductRecord where
  itemId : String
  title : String
  description : String
  categoryPath : List (Nat × String)
  priceCents : Nat
  rating : Option Nat
  reviewCount : Nat
  discountPercent : Option Nat
  condition : Option Condition
  weightMg : Option Nat
  rank : Nat
  channel : String
  region : String
  captureTimestamp : Nat
deriving DecidableEq, Repr

/-- Modelled from the spec: verdict values of the risk classifier (spec §3). -/
inductive Verdict
  | SAFE
  | NEEDS_REVIEW
  | BANNED
deriving DecidableEq, Repr

/-- Modelled from the spec: the identifier of the rule that triggered a
verdict — "which category-id or keyword triggered it, or none for SAFE". -/
inductive MatchedRule
  | categoryId (id : Nat)
  | keyword (kw : String)
deriving DecidableEq, Repr

/-- Modelled from the spec: the judgement attached to a `ProductRecord`
(spec §3, `ClassificationVerdict`). -/
structure ClassificationVerdict where
  verdict : Verdict
  matchedRule : Option MatchedRule
  ruleSetVersion : Nat
deriving DecidableEq, Repr

/-- Modelled from the spec: the versioned rule set (`high_risk_categories.py`
is absent from the sources): banned category ids, banned keywords, and the
lower-confidence review-tier lists (spec §4.4 step 3). -/
structure RuleSet where
  version : Nat
  bannedCategories : List Nat
  bannedKeywords : List String
  reviewCategories : List Nat
  reviewKeywords : List String
deriving DecidableEq, Repr

/-- Does `needle` occur as a contiguous segment of `hay`?  Executable helper
for the classifier's substring matching. -/
def containsSeg (needle : List Char) : List Char → Bool
  | [] => needle.isEmpty
  | c :: rest => List.isPrefixOf needle (c :: rest) || containsSeg needle rest

/-- ASCII lower-casing of one character (`A`–`Z` map to `a`–`z`). -/
def lowerChar (c : Char) : Char :=
  if 65 ≤ c.toNat ∧ c.toNat ≤ 90 then Char.ofNat (c.toNat + 32) else c

/-- ASCII lower-casing of a string, as a character list. -/
def lowerStr (s : String) : List Char :=
  s.data.map lowerChar

/-- Case-insensitive substring match, as required by spec §4.4 step 2. -/
def containsCI (hay needle : String) : Bool :=
  containsSeg (lowerStr needle) (lowerStr hay)

/-- Modelled from the spec: `classify(ProductRecord, rule_set)` (spec §4.4;
`filters.py` is absent from the sources).  Strict first-match-wins order:
banned category on the category path, then banned keyword in title or
description (case-insensitive substring), then the review-tier heuristics,
else SAFE.  The rule-set version is stamped on every verdict. -/
def classify (r : ProductRecord) (rs : RuleSet) : ClassificationVerdict :=
  match (r.categoryPath.map Prod.fst).find? (fun cid => rs.bannedCategories.contains cid) with
  | some cid => ⟨.BANNED, some (.categoryId cid), rs.version⟩
  | none =>
    match rs.bannedKeywords.find? (fun kw => containsCI r.title kw || containsCI r.description kw) with
    | some kw => ⟨.BANNED, some (.keyword kw), rs.version⟩
    | none =>
      match (r.categoryPath.map Prod.fst).find? (fun cid => rs.reviewCategories.contains cid) with
      | some cid => ⟨.NEEDS_REVIEW, some (.categoryId cid), rs.version⟩
      | none =>
        match rs.reviewKeywords.find? (fun kw => containsCI r.title kw || containsCI r.description kw) with
        | some kw => ⟨.NEEDS_REVIEW, some (.keyword kw), rs.version⟩
        | none => ⟨.SAFE, none, rs.version⟩

end Crawler

namespace Crawler

/-- A sample record sitting in a banned category whose title also contains a
banned keyword, used to witness that the category check fires first. -/
def sampleBannedCatRecord : ProductRecord :=
  { itemId := "B0TEST01", title := "Baby FDA thermometer",
    description := "for infants", categoryPath := [(165793011, "Toys & Games")],
    priceCents := 1999, rating := some 45, reviewCount := 10,
    discountPercent := none, condition := some .new, weightMg := some 100000,
    rank := 1, channel := "best_sellers", region := "us", captureTimestamp := 1700000000 }

/-- A rule set banning the Toys & Games category and the keyword "fda". -/
def sampleRuleSet : RuleSet :=
  { version := 1, bannedCategories := [165793011, 3760931],
    bannedKeywords := ["fda", "ce certified"], reviewCategories := [172282],
    reviewKeywords := ["battery"] }

/-- A sample record that matches no rule of `sampleRuleSet` at all. -/
def sampleSafeRecord : ProductRecord :=
  { itemId := "B0TEST02", title := "Stainless steel cup",
    description := "simple cup", categoryPath := [(1055398, "Home")],
    priceCents := 899, rating := some 47, reviewCount := 200,
    discountPercent := some 10, condition := some .new, weightMg := some 250000,
    rank := 7, channel := "outlet", region := "us", captureTimestamp := 1700000001 }

end Crawler

/-- C1: any record whose category path contains a banned category id is
classified BANNED, with the matched rule being such a category id from the
path — independently of title and description, since the category check is
evaluated before the keyword check. -/
theorem c1_banned_category_wins (r : Crawler.ProductRecord) (rs : Crawler.RuleSet)
    (cid : Nat) (hPath : cid ∈ r.categoryPath.map Prod.fst)
    (hBan : cid ∈ rs.bannedCategories) :
    (Crawler.classify r rs).verdict = Crawler.Verdict.BANNED ∧
    ∃ c, c ∈ r.categoryPath.map Prod.fst ∧ c ∈ rs.bannedCategories ∧
      (Crawler.classify r rs).matchedRule = some (Crawler.MatchedRule.categoryId c) := by
  cases hfind : (r.categoryPath.map Prod.fst).find?
      (fun c => rs.bannedCategories.contains c) with
  | none =>
    exfalso
    rw [List.find?_eq_none] at hfind
    exact hfind cid hPath (by simpa using hBan)
  | some c =>
    have hmem : c ∈ r.categoryPath.map Prod.fst := List.mem_of_find?_eq_some hfind
    have hpred := List.find?_some hfind
    have hc : c ∈ rs.bannedCategories := by simpa using hpred
    have hcl : Crawler.classify r rs =
        ⟨Crawler.Verdict.BANNED, some (Crawler.MatchedRule.categoryId c), rs.version⟩ := by
      unfold Crawler.classify
      rw [hfind]
    exact ⟨by rw [hcl], c, hmem, hc, by rw [hcl]⟩

/-- Witness for C1 at a concrete record and rule set: the record's title
contains the banned keyword "fda", yet the matched rule is the banned
category id, showing the category check fires first. -/
theorem c1_banned_category_wins_witness :
    (Crawler.classify Crawler.sampleBannedCatRecord Crawler.sampleRuleSet).verdict
        = Crawler.Verdict.BANNED ∧
    ∃ c, c ∈ Crawler.sampleBannedCatRecord.categoryPath.map Prod.fst ∧
      c ∈ Crawler.sampleRuleSet.bannedCategories ∧
      (Crawler.classify Crawler.sampleBannedCatRecord Crawler.sampleRuleSet).matchedRule
        = some (Crawler.MatchedRule.categoryId c) :=
  c1_banned_category_wins Crawler.sampleBannedCatRecord Crawler.sampleRuleSet
    165793011 (by decide) (by decide)

/-- C2: a BANNED verdict always carries a matched rule, and a SAFE verdict
never does. -/
theorem c2_matched_rule_invariant (r : Crawler.ProductRecord) (rs : Crawler.RuleSet) :
    ((Crawler.classify r rs).verdict = Crawler.Verdict.BANNED →
      (Crawler.classify r rs).matchedRule.isSome = true) ∧
    ((Crawler.classify r rs).verdict = Crawler.Verdict.SAFE →
      (Crawler.classify r rs).matchedRule = none) := by
  unfold Crawler.classify
  cases (r.categoryPath.map Prod.fst).find? (fun cid => rs.bannedCategories.contains cid) with
  | some cid => simp
  | none =>
    cases rs.bannedKeywords.find?
        (fun kw => Crawler.containsCI r.title kw || Crawler.containsCI r.description kw) with
    | some kw => simp
    | none =>
      cases (r.categoryPath.map Prod.fst).find? (fun cid => rs.reviewCategories.contains cid) with
      | some cid => simp
      | none =>
        cases rs.reviewKeywords.find?
            (fun kw => Crawler.containsCI r.title kw || Crawler.containsCI r.description kw) with
        | some kw => simp
        | none => simp

/-- Witness for C2 at concrete inputs: a banned record indeed has a matched
rule and a safe record has none. -/
theorem c2_matched_rule_invariant_witness :
    (Crawler.classify Crawler.sampleBannedCatRecord Crawler.sampleRuleSet).matchedRule.isSome
        = true ∧
    (Crawler.classify Crawler.sampleSafeRecord Crawler.sampleRuleSet).matchedRule = none :=
  ⟨(c2_matched_rule_invariant Crawler.sampleBannedCatRecord Crawler.sampleRuleSet).1
      (by decide),
   (c2_matched_rule_invariant Crawler.sampleSafeRecord Crawler.sampleRuleSet).2
      (by decide)⟩

namespace Crawler

/-- Modelled from the spec: what one planned page yields at fetch+parse time
(`channel_manager.py` / `multi_channel_crawler.py` are absent from the
sources).  A page either parses into a list of records or fails with a
page-level error (fetch failure or malformed page structure). -/
inductive PageOutcome
  | parsed (records : List ProductRecord)
  | failed (err : String)
deriving DecidableEq, Repr

/-- Modelled from the spec: the outcome of one orchestrated crawl pass over
one channel (`ChannelRunResult`, spec §3). -/
structure ChannelRunResult where
  channel : String
  pagesVisited : Nat
  recordsHarvested : Nat
  safeCount : Nat
  reviewCount : Nat
  bannedCount : Nat
  errors : List String
deriving DecidableEq, Repr

/-- Modelled from the spec: the empty run result at the start of a channel
run. -/
def initRun (channel : String) : ChannelRunResult :=
  { channel := channel, pagesVisited := 0, recordsHarvested := 0,
    safeCount := 0, reviewCount := 0, bannedCount := 0, errors := [] }

/-- Modelled from the spec (spec §4.5): processing of one planned page.  A
failed page is appended to the error log and traversal continues; a parsed
page is pre-filtered by the strategy's `accepts`, each accepted record is
classified, and the per-verdict counters are advanced. -/
def processPage (rs : RuleSet) (accepts : ProductRecord → Bool)
    (acc : ChannelRunResult) : PageOutcome → ChannelRunResult
  | .failed e =>
      { acc with pagesVisited := acc.pagesVisited + 1, errors := acc.errors ++ [e] }
  | .parsed recs =>
      let kept := recs.filter accepts
      let verdicts := kept.map (fun r => (classify r rs).verdict)
      { acc with
          pagesVisited := acc.pagesVisited + 1,
          recordsHarvested := acc.recordsHarvested + kept.length,
          safeCount := acc.safeCount + verdicts.countP (fun v => v = .SAFE),
          reviewCount := acc.reviewCount + verdicts.countP (fun v => v = .NEEDS_REVIEW),
          bannedCount := acc.bannedCount + verdicts.countP (fun v => v = .BANNED) }

/-- Modelled from the spec: a completed channel run folds page processing
over the strategy's planned, fetched and parsed pages (spec §4.5). -/
def runChannel (channel : String) (rs : RuleSet) (accepts : ProductRecord → Bool)
    (pages : List PageOutcome) : ChannelRunResult :=
  pages.foldl (processPage rs accepts) (initRun channel)

/-- Per-verdict counts of a verdict list sum to its length: every verdict is
exactly one of SAFE, NEEDS_REVIEW, BANNED. -/
theorem countP_verdicts (vs : List Verdict) :
    (vs.countP (fun v => v = Verdict.SAFE) + vs.countP (fun v => v = Verdict.NEEDS_REVIEW))
      + vs.countP (fun v => v = Verdict.BANNED) = vs.length := by
  induction vs with
  | nil => simp [List.countP_nil]
  | cons v vs ih =>
    rw [List.countP_cons, List.countP_cons, List.countP_cons]
    simp only [List.length_cons]
    cases v <;> simp <;> omega

/-- The partition equation is preserved by processing one page. -/
theorem processPage_partition (rs : RuleSet) (accepts : ProductRecord → Bool)
    (acc : ChannelRunResult) (p : PageOutcome)
    (h : acc.recordsHarvested = (acc.safeCount + acc.reviewCount) + acc.bannedCount) :
    (processPage rs accepts acc p).recordsHarvested =
      (((processPage rs accepts acc p).safeCount +
        (processPage rs accepts acc p).reviewCount) +
        (processPage rs accepts acc p).bannedCount) := by
  cases p with
  | failed e => simpa [processPage] using h
  | parsed recs =>
    simp only [processPage]
    have hcount := countP_verdicts ((recs.filter accepts).map (fun r => (classify r rs).verdict))
    rw [List.length_map] at hcount
    omega

end Crawler

/-- C3: in every completed channel run, the number of harvested records
equals the sum of the SAFE, NEEDS_REVIEW and BANNED counts — the three
per-verdict counters exactly partition the harvested records. -/
theorem c3_partition (channel : String) (rs : Crawler.RuleSet)
    (accepts : Crawler.ProductRecord → Bool) (pages : List Crawler.PageOutcome) :
    (Crawler.runChannel channel rs accepts pages).recordsHarvested =
      ((Crawler.runChannel channel rs accepts pages).safeCount +
        (Crawler.runChannel channel rs accepts pages).reviewCount) +
        (Crawler.runChannel channel rs accepts pages).bannedCount := by
  unfold Crawler.runChannel
  have main : ∀ (ps : List Crawler.PageOutcome) (acc : Crawler.ChannelRunResult),
      acc.recordsHarvested = (acc.safeCount + acc.reviewCount) + acc.bannedCount →
      (ps.foldl (Crawler.processPage rs accepts) acc).recordsHarvested =
        (((ps.foldl (Crawler.processPage rs accepts) acc).safeCount +
          (ps.foldl (Crawler.processPage rs accepts) acc).reviewCount) +
          (ps.foldl (Crawler.processPage rs accepts) acc).bannedCount) := by
    intro ps
    induction ps with
    | nil => intro acc h; simpa using h
    | cons p ps ih =>
      intro acc h
      simpa using ih (Crawler.processPage rs accepts acc p)
        (Crawler.processPage_partition rs accepts acc p h)
  exact main pages (Crawler.initRun channel) (by simp [Crawler.initRun])

namespace Crawler

/-- The error entries contributed by a list of page outcomes, in traversal
order (one entry per failed page). -/
def errsOf : List PageOutcome → List String
  | [] => []
  | .failed e :: ps => e :: errsOf ps
  | .parsed _ :: ps => errsOf ps

/-- The number of records harvested (post-`accepts`) from a list of page
outcomes; failed pages contribute nothing. -/
def harvestOf (accepts : ProductRecord → Bool) : List PageOutcome → Nat
  | [] => 0
  | .failed _ :: ps => harvestOf accepts ps
  | .parsed recs :: ps => (recs.filter accepts).length + harvestOf accepts ps

theorem errsOf_append (ps₁ ps₂ : List PageOutcome) :
    errsOf (ps₁ ++ ps₂) = errsOf ps₁ ++ errsOf ps₂ := by
  induction ps₁ with
  | nil => simp [errsOf]
  | cons p ps ih => cases p <;> simp [errsOf, ih]

theorem harvestOf_append (accepts : ProductRecord → Bool) (ps₁ ps₂ : List PageOutcome) :
    harvestOf accepts (ps₁ ++ ps₂) = harvestOf accepts ps₁ + harvestOf accepts ps₂ := by
  induction ps₁ with
  | nil => simp [harvestOf]
  | cons p ps ih =>
    cases p with
    | failed e => simp [harvestOf, ih]
    | parsed recs =>
      simp [harvestOf, ih]
      omega

/-- Folding page processing advances `pagesVisited` by the number of pages,
appends exactly the failed pages' errors, and adds exactly the accepted
records of the parsed pages. -/
theorem foldl_processPage_fields (rs : RuleSet) (accepts : ProductRecord → Bool) :
    ∀ (ps : List PageOutcome) (acc : ChannelRunResult),
      (ps.foldl (processPage rs accepts) acc).pagesVisited = acc.pagesVisited + ps.length ∧
      (ps.foldl (processPage rs accepts) acc).errors = acc.errors ++ errsOf ps ∧
      (ps.foldl (processPage rs accepts) acc).recordsHarvested
        = acc.recordsHarvested + harvestOf accepts ps := by
  intro ps
  induction ps with
  | nil => intro acc; simp [errsOf, harvestOf]
  | cons p ps ih =>
    intro acc
    have h := ih (processPage rs accepts acc p)
    cases p with
    | failed e =>
      simpa [processPage, errsOf, harvestOf, Nat.add_assoc, Nat.add_comm, Nat.add_left_comm]
        using h
    | parsed recs =>
      simpa [processPage, errsOf, harvestOf, Nat.add_assoc, Nat.add_comm, Nat.add_left_comm]
        using h

end Crawler

/-- C6: a parse/fetch failure on one planned page never aborts the channel
run: all pages before and after it are still visited, the failure is recorded
in the run result's error log (in traversal order), and the records harvested
are exactly those of the same run without the failing page. -/
theorem c6_page_failure_skipped (channel : String) (rs : Crawler.RuleSet)
    (accepts : Crawler.ProductRecord → Bool)
    (ps₁ ps₂ : List Crawler.PageOutcome) (e : String) :
    (Crawler.runChannel channel rs accepts (ps₁ ++ Crawler.PageOutcome.failed e :: ps₂)).pagesVisited
        = ps₁.length + 1 + ps₂.length ∧
    (Crawler.runChannel channel rs accepts (ps₁ ++ Crawler.PageOutcome.failed e :: ps₂)).errors
        = Crawler.errsOf ps₁ ++ e :: Crawler.errsOf ps₂ ∧
    e ∈ (Crawler.runChannel channel rs accepts (ps₁ ++ Crawler.PageOutcome.failed e :: ps₂)).errors ∧
    (Crawler.runChannel channel rs accepts (ps₁ ++ Crawler.PageOutcome.failed e :: ps₂)).recordsHarvested
        = (Crawler.runChannel channel rs accepts (ps₁ ++ ps₂)).recordsHarvested := by
  have h₁ := Crawler.foldl_processPage_fields rs accepts
    (ps₁ ++ Crawler.PageOutcome.failed e :: ps₂) (Crawler.initRun channel)
  have h₂ := Crawler.foldl_processPage_fields rs accepts (ps₁ ++ ps₂) (Crawler.initRun channel)
  refine ⟨?_, ?_, ?_, ?_⟩
  · rw [Crawler.runChannel, h₁.1]
    simp [Crawler.initRun]
    omega
  · rw [Crawler.runChannel, h₁.2.1, Crawler.errsOf_append]
    simp [Crawler.initRun, Crawler.errsOf]
  · rw [Crawler.runChannel, h₁.2.1, Crawler.errsOf_append]
    simp [Crawler.initRun, Crawler.errsOf]
  · rw [Crawler.runChannel, Crawler.runChannel, h₁.2.2, h₂.2.2,
      Crawler.harvestOf_append, Crawler.harvestOf_append]
    simp [Crawler.harvestOf]

namespace Crawler

/-- Modelled from the spec: the Warehouse Deals strategy's `accepts`
pre-filter (spec §4.3; the channel table in the README).  It rejects a
condition outside {like-new, renewed} or a known weight above one pound
(453.6 g = 453600 mg); an unknown weight passes this check (conservative
allow). -/
def warehouseDealsAccepts (r : ProductRecord) : Bool :=
  (decide (r.condition = some Condition.likeNew) || decide (r.condition = some Condition.renewed))
    && (match r.weightMg with
        | none => true
        | some w => decide (w ≤ 453600))

/-- A concrete base record used to instantiate the Warehouse Deals cases. -/
def whBase : ProductRecord :=
  { itemId := "B0WH0001", title := "USB charger", description := "open box",
    categoryPath := [(172282, "Electronics")], priceCents := 1299,
    rating := some 44, reviewCount := 55, discountPercent := some 20,
    condition := some .used, weightMg := some 200000, rank := 3,
    channel := "warehouse", region := "us", captureTimestamp := 1700000002 }

/-- The four concrete cases named by the claim. -/
def whUsed : ProductRecord := { whBase with condition := some .used }

def whRenewedLight : ProductRecord :=
  { whBase with condition := some .renewed, weightMg := some 200000 }

def whRenewedHeavy : ProductRecord :=
  { whBase with condition := some .renewed, weightMg := some 1000000 }

def whRenewedNoWeight : ProductRecord :=
  { whBase with condition := some .renewed, weightMg := none }

end Crawler

/-- C4: the Warehouse Deals `accepts` predicate rejects every record whose
condition is outside {like-new, renewed}, rejects every record with known
weight above 453.6 g (453600 mg), accepts condition renewed with unknown
weight, and behaves as the claim states on the four concrete cases
(used — rejected; renewed at 200 g — accepted; renewed at 1000 g — rejected;
renewed with null weight — accepted). -/
theorem c4_warehouse_accepts :
    (∀ r : Crawler.ProductRecord,
      (r.condition ≠ some Crawler.Condition.likeNew ∧
        r.condition ≠ some Crawler.Condition.renewed) →
      Crawler.warehouseDealsAccepts r = false) ∧
    (∀ (r : Crawler.ProductRecord) (w : Nat),
      r.weightMg = some w → 453600 < w → Crawler.warehouseDealsAccepts r = false) ∧
    (∀ r : Crawler.ProductRecord,
      r.condition = some Crawler.Condition.renewed → r.weightMg = none →
      Crawler.warehouseDealsAccepts r = true) ∧
    Crawler.warehouseDealsAccepts Crawler.whUsed = false ∧
    Crawler.warehouseDealsAccepts Crawler.whRenewedLight = true ∧
    Crawler.warehouseDealsAccepts Crawler.whRenewedHeavy = false ∧
    Crawler.warehouseDealsAccepts Crawler.whRenewedNoWeight = true := by
  refine ⟨?_, ?_, ?_, by decide, by decide, by decide, by decide⟩
  · intro r ⟨h₁, h₂⟩
    simp [Crawler.warehouseDealsAccepts, h₁, h₂]
  · intro r w hw hgt
    have : ¬ w ≤ 453600 := by omega
    simp [Crawler.warehouseDealsAccepts, hw, this]
  · intro r hc hw
    simp [Crawler.warehouseDealsAccepts, hc, hw]

/-- Witness for C4's universally quantified parts at concrete records: the
condition=used rejection, the over-one-pound rejection, and the unknown
weight acceptance each follow by applying the theorem. -/
theorem c4_warehouse_accepts_witness :
    Crawler.warehouseDealsAccepts Crawler.whUsed = false ∧
    Crawler.warehouseDealsAccepts Crawler.whRenewedHeavy = false ∧
    Crawler.warehouseDealsAccepts Crawler.whRenewedNoWeight = true :=
  ⟨c4_warehouse_accepts.1 Crawler.whUsed (by decide),
   c4_warehouse_accepts.2.1 Crawler.whRenewedHeavy 1000000 (by decide) (by decide),
   c4_warehouse_accepts.2.2.1 Crawler.whRenewedNoWeight (by decide) (by decide)⟩

namespace Crawler

/-- The composite storage key of a record: (marketplace item identifier,
capture timestamp), as required by spec §4.6. -/
def recordKey (r : ProductRecord) : String × Nat :=
  (r.itemId, r.captureTimestamp)

/-- Modelled from the spec: upsert-on-composite-key persistence of one
record, common to the relational and document Storage Backend variants
(`db_storage.py` is absent from the sources).  If a row with the same
(identifier, capture timestamp) key exists, it is replaced in place;
otherwise the record is appended. -/
def upsertRecord (store : List ProductRecord) (r : ProductRecord) : List ProductRecord :=
  if store.any (fun s => recordKey s = recordKey r) then
    store.map (fun s => if recordKey s = recordKey r then r else s)
  else
    store ++ [r]

/-- Modelled from the spec: `save_records` saves a batch of records into a
row-oriented backend by upserting each in order. -/
def save_records (store : List ProductRecord) (recs : List ProductRecord) :
    List ProductRecord :=
  recs.foldl upsertRecord store

/-- Modelled from the spec: the file-based Storage Backend variant, which
keys documents by deterministic filenames derived from the composite key;
saving writes the document at its key. -/
def fileStoreSave (files : String × Nat → Option ProductRecord) (r : ProductRecord) :
    String × Nat → Option ProductRecord :=
  fun k => if k = recordKey r then some r else files k

/-- Number of stored rows carrying a given composite key. -/
def rowsForKey (store : List ProductRecord) (k : String × Nat) : Nat :=
  store.countP (fun s => recordKey s = k)

/-- Upserting `r` leaves every row with `r`'s key equal to `r` itself. -/
theorem upsertRecord_key_rows (store : List ProductRecord) (r s : ProductRecord)
    (hs : s ∈ upsertRecord store r) (hk : recordKey s = recordKey r) : s = r := by
  unfold upsertRecord at hs
  by_cases hany : store.any (fun t => recordKey t = recordKey r)
  · rw [if_pos hany] at hs
    obtain ⟨t, _, ht⟩ := List.mem_map.mp hs
    by_cases hkey : recordKey t = recordKey r
    · rw [if_pos (by simpa using hkey)] at ht
      exact ht.symm
    · rw [if_neg (by simpa using hkey)] at ht
      exact absurd (ht ▸ hk) hkey
  · rw [if_neg hany] at hs
    rcases List.mem_append.mp hs with hmem | hmem
    · exfalso
      rw [List.any_eq_true] at hany
      exact hany ⟨s, hmem, by simpa using hk⟩
    · simpa using hmem

/-- After upserting `r`, exactly one row carries `r`'s key whenever at most
one did before. -/
theorem rowsForKey_upsert (store : List ProductRecord) (r : ProductRecord)
    (h : rowsForKey store (recordKey r) ≤ 1) :
    rowsForKey (upsertRecord store r) (recordKey r) = 1 := by
  unfold upsertRecord rowsForKey
  by_cases hany : store.any (fun t => recordKey t = recordKey r)
  · rw [if_pos hany, List.countP_map]
    have hone : 0 < store.countP (fun s => recordKey s = recordKey r) := by
      rw [List.countP_pos_iff]
      rw [List.any_eq_true] at hany
      exact hany
    have heq : store.countP
        ((fun s => decide (recordKey s = recordKey r)) ∘
          fun s => if recordKey s = recordKey r then r else s)
        = store.countP (fun s => recordKey s = recordKey r) := by
      apply List.countP_congr
      intro s _
      by_cases hk : recordKey s = recordKey r
      · simp [hk]
      · simp [hk]
    rw [heq]
    have := h
    unfold rowsForKey at this
    omega
  · rw [if_neg hany, List.countP_append]
    have hzero : store.countP (fun s => recordKey s = recordKey r) = 0 := by
      rw [List.countP_eq_zero]
      intro s hs hss
      exact hany (List.any_eq_true.mpr ⟨s, hs, hss⟩)
    simp [hzero, List.countP_cons]

end Crawler

/-- C5: saving a record twice with the same (identifier, capture timestamp)
key is idempotent on every Storage Backend variant: on the row-oriented
upsert backends the second save changes nothing and exactly one row carries
the key (given the backend's at-most-one-row-per-key invariant), and on the
filename-keyed file backend the second save is literally the identity. -/
theorem c5_save_idempotent (store : List Crawler.ProductRecord)
    (files : String × Nat → Option Crawler.ProductRecord) (r : Crawler.ProductRecord)
    (h : Crawler.rowsForKey store (Crawler.recordKey r) ≤ 1) :
    Crawler.rowsForKey (Crawler.save_records (Crawler.save_records store [r]) [r])
        (Crawler.recordKey r) = 1 ∧
    Crawler.save_records (Crawler.save_records store [r]) [r]
        = Crawler.save_records store [r] ∧
    Crawler.fileStoreSave (Crawler.fileStoreSave files r) r = Crawler.fileStoreSave files r := by
  have hsingle : ∀ st : List Crawler.ProductRecord, Crawler.save_records st [r]
      = Crawler.upsertRecord st r := by
    intro st
    simp [Crawler.save_records]
  have hone := Crawler.rowsForKey_upsert store r h
  have hfix : Crawler.upsertRecord (Crawler.upsertRecord store r) r
      = Crawler.upsertRecord store r := by
    have hany : (Crawler.upsertRecord store r).any
        (fun t => Crawler.recordKey t = Crawler.recordKey r) = true := by
      rw [List.any_eq_true]
      have : 0 < Crawler.rowsForKey (Crawler.upsertRecord store r) (Crawler.recordKey r) := by
        omega
      rw [Crawler.rowsForKey, List.countP_pos_iff] at this
      exact this
    rw [Crawler.upsertRecord, if_pos hany]
    have hid : List.map (fun s => if Crawler.recordKey s = Crawler.recordKey r then r else s)
        (Crawler.upsertRecord store r) = List.map id (Crawler.upsertRecord store r) := by
      apply List.map_congr_left
      intro s hs
      by_cases hk : Crawler.recordKey s = Crawler.recordKey r
      · simp only [if_pos hk, id]
        exact (Crawler.upsertRecord_key_rows store r s hs hk).symm
      · simp only [if_neg hk, id]
    rw [hid, List.map_id]
  refine ⟨?_, ?_, ?_⟩
  · rw [hsingle, hsingle, hfix]
    exact hone
  · rw [hsingle, hsingle, hfix]
  · funext k
    by_cases hk : k = Crawler.recordKey r <;> simp [Crawler.fileStoreSave, hk]

/-- Witness for C5 starting from the empty store: both saves of a concrete
record land on one row for its key. -/
theorem c5_save_idempotent_witness :
    Crawler.rowsForKey
        (Crawler.save_records (Crawler.save_records [] [Crawler.sampleSafeRecord])
          [Crawler.sampleSafeRecord]) (Crawler.recordKey Crawler.sampleSafeRecord) = 1 ∧
    Crawler.save_records (Crawler.save_records [] [Crawler.sampleSafeRecord])
        [Crawler.sampleSafeRecord]
      = Crawler.save_records [] [Crawler.sampleSafeRecord] ∧
    Crawler.fileStoreSave
        (Crawler.fileStoreSave (fun _ => none) Crawler.sampleSafeRecord)
        Crawler.sampleSafeRecord
      = Crawler.fileStoreSave (fun _ => none) Crawler.sampleSafeRecord :=
  c5_save_idempotent [] (fun _ => none) Crawler.sampleSafeRecord (by decide)

namespace Crawler

/-- Modelled from the spec: health state of one proxy endpoint
(healthy / cooling-down / banned, spec §3).  A cooling-down endpoint carries
the logical time at which its cooldown expires. -/
inductive Health
  | healthy
  | coolingDown (readyAt : Nat)
  | banned
deriving DecidableEq, Repr

/-- Modelled from the spec: one outbound network path (`ProxyEndpoint`,
spec §3; `proxy_manager.py` is absent from the sources). -/
structure ProxyEndpoint where
  addr : String
  scheme : String
  health : Health
  consecutiveFailures : Nat
  lastUsed : Nat
deriving DecidableEq, Repr

/-- Modelled from the spec: the Proxy Manager's pool state with its
configuration (ban threshold, default 5; exponential cooldown base and cap,
spec §4.1). -/
structure ProxyPool where
  endpoints : List ProxyEndpoint
  rrIndex : Nat
  banThreshold : Nat
  baseCooldown : Nat
  cooldownCap : Nat
deriving DecidableEq, Repr

/-- Modelled from the spec: report outcomes fed back to the Proxy Manager. -/
inductive Outcome
  | success
  | blocked
  | timeout
deriving DecidableEq, Repr

/-- Is the endpoint eligible for selection at logical time `now`?  Banned
endpoints never are; cooling-down endpoints only once their cooldown has
expired. -/
def available (now : Nat) (ep : ProxyEndpoint) : Bool :=
  match ep.health with
  | .healthy => true
  | .coolingDown readyAt => decide (readyAt ≤ now)
  | .banned => false

/-- Modelled from the spec: `acquire()` selects round-robin (rotation by the
round-robin index) among eligible endpoints, or returns none when every
endpoint is cooling down or banned (spec §4.1). -/
def acquire (pool : ProxyPool) (now : Nat) : Option ProxyEndpoint :=
  (pool.endpoints.rotate pool.rrIndex).find? (available now)

/-- Modelled from the spec: the state transition of one endpoint on one
`report()` call (spec §4.1).  Banned is terminal for the process lifetime; a
success heals to healthy and resets the consecutive-failure count; a blocked
or timeout outcome increments it and either bans the endpoint (threshold
reached) or starts an exponentially growing, capped cooldown. -/
def reportEp (th base cap now : Nat) (ep : ProxyEndpoint) (o : Outcome) : ProxyEndpoint :=
  match ep.health, o with
  | .banned, _ => { ep with lastUsed := now }
  | _, .success => { ep with lastUsed := now, consecutiveFailures := 0, health := .healthy }
  | _, .blocked =>
      if th ≤ ep.consecutiveFailures + 1 then
        { ep with lastUsed := now, consecutiveFailures := ep.consecutiveFailures + 1,
                  health := .banned }
      else
        { ep with lastUsed := now, consecutiveFailures := ep.consecutiveFailures + 1,
                  health := .coolingDown
                    (now + min cap (base * 2 ^ ep.consecutiveFailures)) }
  | _, .timeout =>
      if th ≤ ep.consecutiveFailures + 1 then
        { ep with lastUsed := now, consecutiveFailures := ep.consecutiveFailures + 1,
                  health := .banned }
      else
        { ep with lastUsed := now, consecutiveFailures := ep.consecutiveFailures + 1,
                  health := .coolingDown
                    (now + min cap (base * 2 ^ ep.consecutiveFailures)) }

/-- Modelled from the spec: one `report(endpoint, outcome)` call against the
pool, addressed by endpoint address. -/
structure ReportEvent where
  addr : String
  outcome : Outcome
  time : Nat
deriving DecidableEq, Repr

/-- Applying one report to the pool updates exactly the endpoints with the
reported address. -/
def applyReport (pool : ProxyPool) (ev : ReportEvent) : ProxyPool :=
  { pool with
      endpoints := pool.endpoints.map (fun ep =>
        if ep.addr = ev.addr then
          reportEp pool.banThreshold pool.baseCooldown pool.cooldownCap ev.time ep ev.outcome
        else ep) }

/-- A sequence of reports, folded in order. -/
def applyReports (pool : ProxyPool) (evs : List ReportEvent) : ProxyPool :=
  evs.foldl applyReport pool

theorem reportEp_addr (th base cap now : Nat) (ep : ProxyEndpoint) (o : Outcome) :
    (reportEp th base cap now ep o).addr = ep.addr := by
  cases h : ep.health <;> cases o <;> simp [reportEp, h] <;> split <;> rfl

theorem reportEp_banned_terminal (th base cap now : Nat) (ep : ProxyEndpoint) (o : Outcome)
    (h : ep.health = Health.banned) :
    (reportEp th base cap now ep o).health = Health.banned := by
  cases o <;> simp [reportEp, h]

/-- Every endpoint at address `a` is banned. -/
def allBannedAt (pool : ProxyPool) (a : String) : Prop :=
  ∀ ep ∈ pool.endpoints, ep.addr = a → ep.health = Health.banned

theorem allBannedAt_applyReport (pool : ProxyPool) (ev : ReportEvent) (a : String)
    (h : allBannedAt pool a) : allBannedAt (applyReport pool ev) a := by
  intro ep' hmem haddr
  rw [applyReport] at hmem
  obtain ⟨ep, hep, rfl⟩ := List.mem_map.mp hmem
  by_cases hif : ep.addr = ev.addr
  · rw [if_pos hif] at haddr ⊢
    rw [reportEp_addr] at haddr
    exact reportEp_banned_terminal _ _ _ _ _ _ (h ep hep haddr)
  · rw [if_neg hif] at haddr ⊢
    exact h ep hep haddr

theorem allBannedAt_applyReports (pool : ProxyPool) (evs : List ReportEvent) (a : String)
    (h : allBannedAt pool a) : allBannedAt (applyReports pool evs) a := by
  induction evs generalizing pool with
  | nil => simpa [applyReports] using h
  | cons ev evs ih =>
    rw [applyReports, List.foldl_cons]
    exact ih (applyReport pool ev) (allBannedAt_applyReport pool ev a h)

theorem acquire_avoids_banned_addr (pool : ProxyPool) (a : String) (now : Nat)
    (ep : ProxyEndpoint) (h : allBannedAt pool a) (hacq : acquire pool now = some ep) :
    ep.addr ≠ a := by
  intro haddr
  have hmem : ep ∈ pool.endpoints :=
    List.mem_rotate.mp (List.mem_of_find?_eq_some hacq)
  have havail := List.find?_some hacq
  rw [available, h ep hmem haddr] at havail
  exact Bool.false_ne_true havail

end Crawler

namespace Crawler

/-- Invariant while an address is being reported blocked: every endpoint at
that address is already banned, or has accumulated exactly `k` consecutive
failures with `k` still below the ban threshold. -/
def bannedOrFailures (pool : ProxyPool) (a : String) (k : Nat) : Prop :=
  ∀ ep ∈ pool.endpoints, ep.addr = a →
    (ep.health = Health.banned ∨
      (ep.consecutiveFailures = k ∧ k < pool.banThreshold))

theorem applyReport_banThreshold (pool : ProxyPool) (ev : ReportEvent) :
    (applyReport pool ev).banThreshold = pool.banThreshold := rfl

/-- One blocked report on the address advances the invariant counter. -/
theorem blocked_step (pool : ProxyPool) (a : String) (t k : Nat)
    (h : bannedOrFailures pool a k) :
    bannedOrFailures (applyReport pool ⟨a, .blocked, t⟩) a (k + 1) := by
  intro ep' hmem haddr
  rw [applyReport] at hmem
  obtain ⟨ep, hep, rfl⟩ := List.mem_map.mp hmem
  rw [applyReport_banThreshold]
  by_cases hif : ep.addr = a
  · rw [if_pos hif] at haddr ⊢
    rcases h ep hep hif with hban | ⟨hfk, hklt⟩
    · exact Or.inl (reportEp_banned_terminal _ _ _ _ _ _ hban)
    · cases hh : ep.health with
      | banned => exact Or.inl (reportEp_banned_terminal _ _ _ _ _ _ hh)
      | healthy =>
        by_cases hthr : pool.banThreshold ≤ ep.consecutiveFailures + 1
        · exact Or.inl (by simp [reportEp, hh, if_pos hthr])
        · refine Or.inr ⟨?_, ?_⟩
          · simp [reportEp, hh, if_neg hthr]
            omega
          · omega
      | coolingDown rt =>
        by_cases hthr : pool.banThreshold ≤ ep.consecutiveFailures + 1
        · exact Or.inl (by simp [reportEp, hh, if_pos hthr])
        · refine Or.inr ⟨?_, ?_⟩
          · simp [reportEp, hh, if_neg hthr]
            omega
          · omega
  · rw [if_neg hif] at haddr
    exact absurd haddr hif

end Crawler

/-- C7: `acquire()` never returns a banned endpoint nor a cooling-down
endpoint whose cooldown has not expired, in any pool state; and with the
default ban threshold of 5, after 5 consecutive blocked reports on one
address that started with a zero consecutive-failure count, no later
sequence of reports can ever make `acquire()` return an endpoint at that
address again. -/
theorem c7_proxy_acquire_safety (pool : Crawler.ProxyPool) (a : String)
    (t₁ t₂ t₃ t₄ t₅ : Nat) (hth : pool.banThreshold = 5)
    (hf : ∀ ep ∈ pool.endpoints, ep.addr = a → ep.consecutiveFailures = 0) :
    (∀ (q : Crawler.ProxyPool) (now : Nat) (ep : Crawler.ProxyEndpoint),
        Crawler.acquire q now = some ep →
        ep.health ≠ Crawler.Health.banned ∧
        ∀ rt, ep.health = Crawler.Health.coolingDown rt → rt ≤ now) ∧
    (∀ (evs : List Crawler.ReportEvent) (now : Nat) (ep : Crawler.ProxyEndpoint),
        Crawler.acquire (Crawler.applyReports (Crawler.applyReports pool
            [⟨a, .blocked, t₁⟩, ⟨a, .blocked, t₂⟩, ⟨a, .blocked, t₃⟩,
             ⟨a, .blocked, t₄⟩, ⟨a, .blocked, t₅⟩]) evs) now = some ep →
        ep.addr ≠ a) := by
  constructor
  · intro q now ep hacq
    have havail := List.find?_some hacq
    cases hh : ep.health with
    | healthy =>
      refine ⟨by simp [hh], ?_⟩
      intro rt hrt
      cases hrt
    | coolingDown rt₀ =>
      rw [Crawler.available, hh] at havail
      refine ⟨by simp [hh], ?_⟩
      intro rt hrt
      cases hrt
      exact of_decide_eq_true havail
    | banned =>
      rw [Crawler.available, hh] at havail
      simp at havail
  · intro evs now ep hacq
    have h0 : Crawler.bannedOrFailures pool a 0 := by
      intro e he ha
      exact Or.inr ⟨hf e he ha, by omega⟩
    have h1 := Crawler.blocked_step pool a t₁ 0 h0
    have h2 := Crawler.blocked_step _ a t₂ 1 h1
    have h3 := Crawler.blocked_step _ a t₃ 2 h2
    have h4 := Crawler.blocked_step _ a t₄ 3 h3
    have h5 := Crawler.blocked_step _ a t₅ 4 h4
    have hall : Crawler.allBannedAt (Crawler.applyReports pool
        [⟨a, .blocked, t₁⟩, ⟨a, .blocked, t₂⟩, ⟨a, .blocked, t₃⟩,
         ⟨a, .blocked, t₄⟩, ⟨a, .blocked, t₅⟩]) a := by
      intro e he ha
      rcases h5 e he ha with hban | ⟨_, hlt⟩
      · exact hban
      · exfalso
        simp only [Crawler.applyReport_banThreshold] at hlt
        omega
    exact Crawler.acquire_avoids_banned_addr _ a now ep
      (Crawler.allBannedAt_applyReports _ evs a hall) hacq

namespace Crawler

/-- A concrete healthy endpoint at address p1. -/
def sampleProxyA : ProxyEndpoint :=
  { addr := "p1", scheme := "http", health := .healthy,
    consecutiveFailures := 0, lastUsed := 0 }

/-- A concrete healthy endpoint at address p2. -/
def sampleProxyB : ProxyEndpoint :=
  { addr := "p2", scheme := "socks5", health := .healthy,
    consecutiveFailures := 0, lastUsed := 0 }

/-- A two-endpoint pool with the default ban threshold of 5. -/
def sampleProxyPool : ProxyPool :=
  { endpoints := [sampleProxyA, sampleProxyB], rrIndex := 0,
    banThreshold := 5, baseCooldown := 100, cooldownCap := 3200 }

end Crawler

/-- Witness for C7 on the concrete two-endpoint pool: after 5 blocked
reports on p1, `acquire` returns the p2 endpoint, whose address the theorem
shows can no longer be p1. -/
theorem c7_proxy_acquire_safety_witness :
    Crawler.acquire (Crawler.applyReports (Crawler.applyReports Crawler.sampleProxyPool
        [⟨"p1", .blocked, 1⟩, ⟨"p1", .blocked, 2⟩, ⟨"p1", .blocked, 3⟩,
         ⟨"p1", .blocked, 4⟩, ⟨"p1", .blocked, 5⟩]) []) 7
      = some Crawler.sampleProxyB ∧
    Crawler.sampleProxyB.addr ≠ "p1" :=
  ⟨by decide,
   (c7_proxy_acquire_safety Crawler.sampleProxyPool "p1" 1 2 3 4 5
      (by decide) (by decide)).2 [] 7 Crawler.sampleProxyB (by decide)⟩

namespace Dashboard

/-- Recommendation tier assignment of `generateMockProduct`
(`src/js/analysis.js`): a first-match-wins chain over the computed selection
score, risk level and profit rate (all `Math.floor`ed integers). -/
def recommendation (selectionScore riskLevel profitRate : Int) : String :=
  if 85 ≤ selectionScore ∧ riskLevel < 30 ∧ 25 < profitRate then "强烈推荐"
  else if 75 ≤ selectionScore ∧ riskLevel < 50 ∧ 20 < profitRate then "建议上架"
  else if 60 ≤ selectionScore ∧ riskLevel < 70 ∧ 15 < profitRate then "谨慎考虑"
  else "不建议上架"

/-- `toggleFieldVisible` of the selection-results page
(`src/unnamed/part_003`): removing the last visible field is refused;
otherwise a contained field is filtered out and a missing field is pushed at
the end. -/
def toggleFieldVisible (visibleFields : List String) (field : String) : List String :=
  if visibleFields.contains field then
    if visibleFields.length = 1 then visibleFields
    else visibleFields.filter (fun f => f ≠ field)
  else visibleFields ++ [field]

end Dashboard

/-- C8: every mock product's recommendation is exactly one of the four tier
strings, assigned first-match-wins on (selectionScore, riskLevel,
profitRate): 强烈推荐 iff score ≥ 85, risk < 30, profit > 25; else 建议上架
iff score ≥ 75, risk < 50, profit > 20; else 谨慎考虑 iff score ≥ 60,
risk < 70, profit > 15; else 不建议上架. -/
theorem c8_recommendation_tiers (s r p : Int) :
    (Dashboard.recommendation s r p = "强烈推荐" ∨
      Dashboard.recommendation s r p = "建议上架" ∨
      Dashboard.recommendation s r p = "谨慎考虑" ∨
      Dashboard.recommendation s r p = "不建议上架") ∧
    (Dashboard.recommendation s r p = "强烈推荐" ↔
      (85 ≤ s ∧ r < 30 ∧ 25 < p)) ∧
    (Dashboard.recommendation s r p = "建议上架" ↔
      (¬(85 ≤ s ∧ r < 30 ∧ 25 < p) ∧ (75 ≤ s ∧ r < 50 ∧ 20 < p))) ∧
    (Dashboard.recommendation s r p = "谨慎考虑" ↔
      (¬(85 ≤ s ∧ r < 30 ∧ 25 < p) ∧ ¬(75 ≤ s ∧ r < 50 ∧ 20 < p) ∧
        (60 ≤ s ∧ r < 70 ∧ 15 < p))) ∧
    (Dashboard.recommendation s r p = "不建议上架" ↔
      (¬(85 ≤ s ∧ r < 30 ∧ 25 < p) ∧ ¬(75 ≤ s ∧ r < 50 ∧ 20 < p) ∧
        ¬(60 ≤ s ∧ r < 70 ∧ 15 < p))) := by
  have hne₁ : ("强烈推荐" : String) ≠ "建议上架" := by decide
  have hne₂ : ("强烈推荐" : String) ≠ "谨慎考虑" := by decide
  have hne₃ : ("强烈推荐" : String) ≠ "不建议上架" := by decide
  have hne₄ : ("建议上架" : String) ≠ "谨慎考虑" := by decide
  have hne₅ : ("建议上架" : String) ≠ "不建议上架" := by decide
  have hne₆ : ("谨慎考虑" : String) ≠ "不建议上架" := by decide
  unfold Dashboard.recommendation
  split_ifs with h₁ h₂ h₃
  · exact ⟨Or.inl rfl, iff_of_true rfl h₁,
      iff_of_false hne₁ (fun hc => hc.1 h₁),
      iff_of_false hne₂ (fun hc => hc.1 h₁),
      iff_of_false hne₃ (fun hc => hc.1 h₁)⟩
  · exact ⟨Or.inr (Or.inl rfl), iff_of_false (Ne.symm hne₁) h₁,
      iff_of_true rfl ⟨h₁, h₂⟩,
      iff_of_false hne₄ (fun hc => hc.2.1 h₂),
      iff_of_false hne₅ (fun hc => hc.2.1 h₂)⟩
  · exact ⟨Or.inr (Or.inr (Or.inl rfl)), iff_of_false (Ne.symm hne₂) h₁,
      iff_of_false (Ne.symm hne₄) (fun hc => h₂ hc.2),
      iff_of_true rfl ⟨h₁, h₂, h₃⟩,
      iff_of_false hne₆ (fun hc => hc.2.2 h₃)⟩
  · exact ⟨Or.inr (Or.inr (Or.inr rfl)), iff_of_false (Ne.symm hne₃) h₁,
      iff_of_false (Ne.symm hne₅) (fun hc => h₂ hc.2),
      iff_of_false (Ne.symm hne₆) (fun hc => h₃ hc.2.2),
      iff_of_true rfl ⟨h₁, h₂, h₃⟩⟩

namespace Dashboard

/-- One `toggleFieldVisible` call preserves duplicate-freeness and
non-emptiness of the visible-field list. -/
theorem toggleFieldVisible_invariant (l : List String) (f : String)
    (hnd : l.Nodup) (hne : l ≠ []) :
    (toggleFieldVisible l f).Nodup ∧ toggleFieldVisible l f ≠ [] := by
  unfold toggleFieldVisible
  by_cases hmem : l.contains f
  · rw [if_pos hmem]
    by_cases hlen : l.length = 1
    · rw [if_pos hlen]
      exact ⟨hnd, hne⟩
    · rw [if_neg hlen]
      refine ⟨hnd.filter _, ?_⟩
      have hf : f ∈ l := by simpa using hmem
      have hcount : l.countP (fun g => g = f) ≤ 1 := by
        have h1 := List.nodup_iff_count_le_one.mp hnd f
        rw [List.count_eq_countP] at h1
        have : l.countP (fun g => g = f) = l.countP (fun x => x == f) := by
          apply List.countP_congr
          intro x _
          simp
        omega
      have hsplit := List.length_eq_countP_add_countP (fun g => decide (g ≠ f)) l
      have hcomp : l.countP (fun a => decide ¬(decide (a ≠ f) = true))
          = l.countP (fun g => g = f) := by
        apply List.countP_congr
        intro x _
        simp
      have hflen : (l.filter (fun g => g ≠ f)).length = l.countP (fun g => g ≠ f) :=
        (List.countP_eq_length_filter _ l).symm
      have hlen2 : 2 ≤ l.length := by
        rcases l with _ | ⟨a, _ | ⟨b, t⟩⟩
        · exact absurd rfl hne
        · exact absurd rfl hlen
        · simp
      have hpos : 0 < (l.filter (fun g => g ≠ f)).length := by
        omega
      intro hnil
      rw [hnil] at hpos
      simp at hpos
  · rw [if_neg hmem]
    have hf : f ∉ l := by simpa using hmem
    refine ⟨hnd.append (List.nodup_singleton f) ?_, by simp⟩
    exact List.disjoint_singleton.mpr hf

end Dashboard

/-- C10 counterexample: starting from the non-empty list ["a", "a"], a
single `toggleFieldVisible` call empties the list (the length-one guard does
not fire because the field occurs twice), so non-emptiness is not preserved
from arbitrary non-empty starting lists. -/
theorem c10_toggle_counterexample :
    (["a", "a"] : List String) ≠ [] ∧
    List.foldl Dashboard.toggleFieldVisible ["a", "a"] ["a"] = [] := by
  constructor
  · decide
  · decide

/-- C10 (amended): toggling the single remaining field leaves the list
unchanged, and from any non-empty, duplicate-free visibleFields list — as
the page itself constructs — any sequence of `toggleFieldVisible` calls
keeps the list duplicate-free and non-empty. -/
theorem c10_toggle_keeps_nonempty (l : List String) (fs : List String)
    (hnd : l.Nodup) (hne : l ≠ []) :
    (∀ (m : List String) (f : String), m.length = 1 → m.contains f →
      Dashboard.toggleFieldVisible m f = m) ∧
    (List.foldl Dashboard.toggleFieldVisible l fs).Nodup ∧
    List.foldl Dashboard.toggleFieldVisible l fs ≠ [] := by
  refine ⟨?_, ?_⟩
  · intro m f hlen hmem
    unfold Dashboard.toggleFieldVisible
    rw [if_pos hmem, if_pos hlen]
  · induction fs generalizing l with
    | nil => exact ⟨hnd, hne⟩
    | cons f fs ih =>
      rw [List.foldl_cons]
      have h := Dashboard.toggleFieldVisible_invariant l f hnd hne
      exact ih (Dashboard.toggleFieldVisible l f) h.1 h.2

/-- Witness for the amended C10 at a concrete starting list and toggle
sequence: toggling a singleton's only field is refused and a longer sequence
from ["asin", "price"] stays duplicate-free and non-empty. -/
theorem c10_toggle_keeps_nonempty_witness :
    Dashboard.toggleFieldVisible ["asin"] "asin" = ["asin"] ∧
    (List.foldl Dashboard.toggleFieldVisible ["asin", "price"]
      ["price", "rating", "asin"]).Nodup ∧
    List.foldl Dashboard.toggleFieldVisible ["asin", "price"]
      ["price", "rating", "asin"] ≠ [] :=
  ⟨(c10_toggle_keeps_nonempty ["asin", "price"] ["price", "rating", "asin"]
      (by decide) (by decide)).1 ["asin"] "asin" (by decide) (by decide),
   (c10_toggle_keeps_nonempty ["asin", "price"] ["price", "rating", "asin"]
      (by decide) (by decide)).2⟩

namespace Dashboard

/-- The sort comparator of `renderTable` (`src/unnamed/part_003`): undefined
values compare after everything (the first two checks ignore the sort
direction), and two defined values are ordered by the direction-sensitive
checks.  The JavaScript `>` / `<` tests on two defined values (after the
numeric-coercion step, which never fires when either side is undefined) are
abstracted by the parameters `gtV` and `ltV`. -/
def renderTableCmp {α : Type u} (sortAsc : Bool) (gtV ltV : α → α → Bool) :
    Option α → Option α → Int
  | none, _ => 1
  | some _, none => -1
  | some a, some b =>
      if gtV a b then (if sortAsc then 1 else -1)
      else if ltV a b then (if sortAsc then -1 else 1)
      else 0

/-- Row order induced by the comparator on a chosen sort field: row `a`
sorts no later than row `b` when the comparator is non-positive. -/
def rowLe {α β : Type u} (sortAsc : Bool) (gtV ltV : α → α → Bool)
    (field : β → Option α) (a b : β) : Bool :=
  decide (renderTableCmp sortAsc gtV ltV (field a) (field b) ≤ 0)

/-- Fuel-driven stable two-way merge (left element kept first on ties), the
kernel of the stable sort that models `Array.prototype.sort`. -/
def mergeFuel {β : Type u} (le : β → β → Bool) : Nat → List β → List β → List β
  | 0, xs, ys => xs ++ ys
  | _ + 1, [], ys => ys
  | _ + 1, x :: xs, [] => x :: xs
  | n + 1, x :: xs, y :: ys =>
      if le x y then x :: mergeFuel le n xs (y :: ys)
      else y :: mergeFuel le n (x :: xs) ys

/-- Merge of two runs with exactly adequate fuel. -/
def mergeRuns {β : Type u} (le : β → β → Bool) (xs ys : List β) : List β :=
  mergeFuel le (xs.length + ys.length) xs ys

/-- One bottom-up pass merging adjacent runs. -/
def mergePairs {β : Type u} (le : β → β → Bool) : List (List β) → List (List β)
  | a :: b :: rest => mergeRuns le a b :: mergePairs le rest
  | ls => ls

/-- Repeated pair-merging until one run remains. -/
def mergeAllFuel {β : Type u} (le : β → β → Bool) : Nat → List (List β) → List β
  | 0, [] => []
  | 0, l :: _ => l
  | _ + 1, [] => []
  | _ + 1, [l] => l
  | n + 1, a :: b :: rest => mergeAllFuel le n (mergePairs le (a :: b :: rest))

/-- Bottom-up stable merge sort: the model of the JavaScript engine's stable
`Array.prototype.sort` applied to the page's comparator. -/
def stableMergeSort {β : Type u} (le : β → β → Bool) (l : List β) : List β :=
  mergeAllFuel le l.length (l.map (fun x => [x]))

/-- The sort performed by `renderTable` when a sort field is selected. -/
def sortProducts {α β : Type u} (sortAsc : Bool) (gtV ltV : α → α → Bool)
    (field : β → Option α) (l : List β) : List β :=
  stableMergeSort (rowLe sortAsc gtV ltV field) l

theorem mergeFuel_perm {β : Type u} (le : β → β → Bool) :
    ∀ (n : Nat) (xs ys : List β), (mergeFuel le n xs ys).Perm (xs ++ ys)
  | 0, xs, ys => List.Perm.refl _
  | _ + 1, [], ys => by simp [mergeFuel]
  | _ + 1, _ :: _, [] => by simp [mergeFuel]
  | n + 1, x :: xs, y :: ys => by
      rw [mergeFuel]
      by_cases h : le x y
      · rw [if_pos h]
        exact (mergeFuel_perm le n xs (y :: ys)).cons x
      · rw [if_neg h]
        exact ((mergeFuel_perm le n (x :: xs) ys).cons y).trans List.perm_middle.symm

theorem mergeRuns_perm {β : Type u} (le : β → β → Bool) (xs ys : List β) :
    (mergeRuns le xs ys).Perm (xs ++ ys) :=
  mergeFuel_perm le (xs.length + ys.length) xs ys

theorem mergePairs_flatten_perm {β : Type u} (le : β → β → Bool) :
    ∀ ls : List (List β), ((mergePairs le ls).flatten).Perm ls.flatten
  | [] => by simp [mergePairs]
  | [a] => by simp [mergePairs]
  | a :: b :: rest => by
      simp only [mergePairs, List.flatten_cons]
      exact ((mergeRuns_perm le a b).append
        (mergePairs_flatten_perm le rest)).trans (by rw [List.append_assoc])

theorem mergePairs_length {β : Type u} (le : β → β → Bool) :
    ∀ ls : List (List β), 2 * (mergePairs le ls).length ≤ ls.length + 1
  | [] => by simp [mergePairs]
  | [a] => by simp [mergePairs]
  | a :: b :: rest => by
      have h := mergePairs_length le rest
      simp only [mergePairs, List.length_cons]
      omega

theorem mergeAllFuel_perm {β : Type u} (le : β → β → Bool) :
    ∀ (n : Nat) (ls : List (List β)), ls.length ≤ n + 1 →
      (mergeAllFuel le n ls).Perm ls.flatten
  | 0, [], _ => by simp [mergeAllFuel]
  | 0, [l], _ => by simp [mergeAllFuel]
  | 0, a :: b :: rest, h => by
      exfalso
      simp at h
  | _ + 1, [], _ => by simp [mergeAllFuel]
  | _ + 1, [l], _ => by simp [mergeAllFuel]
  | n + 1, a :: b :: rest, h => by
      simp only [mergeAllFuel]
      have hmp := mergePairs_length le (a :: b :: rest)
      have hlen : (mergePairs le (a :: b :: rest)).length ≤ n + 1 := by
        simp only [List.length_cons] at h hmp
        omega
      exact (mergeAllFuel_perm le n _ hlen).trans (mergePairs_flatten_perm le (a :: b :: rest))

theorem flatten_singletons {β : Type u} :
    ∀ l : List β, (l.map (fun x => [x])).flatten = l
  | [] => rfl
  | x :: l => by simp [flatten_singletons l]

theorem stableMergeSort_perm {β : Type u} (le : β → β → Bool) (l : List β) :
    (stableMergeSort le l).Perm l := by
  have h := mergeAllFuel_perm le l.length (l.map (fun x => [x])) (by simp)
  rw [flatten_singletons] at h
  exact h

end Dashboard

namespace Dashboard

/-- Rows satisfying `P` (in the claim: rows whose sort-field value is
undefined) only ever appear after one another: once such a row occurs, every
later row also satisfies `P`. -/
def UndefLast {β : Type u} (P : β → Prop) (l : List β) : Prop :=
  l.Pairwise (fun a b => P a → P b)

theorem mergeFuel_undefLast {β : Type u} (P : β → Prop) (le : β → β → Bool)
    (h1 : ∀ a b, P a → le a b = false)
    (h2 : ∀ a b, ¬ P a → P b → le a b = true) :
    ∀ (n : Nat) (xs ys : List β), xs.length + ys.length ≤ n →
      UndefLast P xs → UndefLast P ys → UndefLast P (mergeFuel le n xs ys)
  | 0, xs, ys, hn, _, _ => by
      have hxe : xs = [] := List.length_eq_zero.mp (by omega)
      have hye : ys = [] := List.length_eq_zero.mp (by omega)
      subst hxe
      subst hye
      simp [mergeFuel, UndefLast]
  | _ + 1, [], ys, _, _, hy => by simpa [mergeFuel] using hy
  | _ + 1, x :: xs, [], _, hx, _ => by simpa [mergeFuel] using hx
  | n + 1, x :: xs, y :: ys, hn, hx, hy => by
      rw [mergeFuel]
      obtain ⟨hxhead, hxtail⟩ := List.pairwise_cons.mp hx
      obtain ⟨hyhead, hytail⟩ := List.pairwise_cons.mp hy
      by_cases hle : le x y = true
      · rw [if_pos hle, UndefLast, List.pairwise_cons]
        constructor
        · intro z _ hPx
          have hfalse := h1 x y hPx
          rw [hfalse] at hle
          cases hle
        · exact mergeFuel_undefLast P le h1 h2 n xs (y :: ys)
            (by simp only [List.length_cons] at hn ⊢; omega) hxtail hy
      · rw [if_neg hle, UndefLast, List.pairwise_cons]
        refine ⟨?_, mergeFuel_undefLast P le h1 h2 n (x :: xs) ys
          (by simp only [List.length_cons] at hn ⊢; omega) hx hytail⟩
        intro z hz hPy
        have hPx : P x := by
          by_contra hnPx
          exact hle (h2 x y hnPx hPy)
        have hmem : z ∈ (x :: xs) ++ ys :=
          (mergeFuel_perm le n (x :: xs) ys).mem_iff.mp hz
        rcases List.mem_append.mp hmem with hzx | hzy
        · rcases List.mem_cons.mp hzx with rfl | hzxs
          · exact hPx
          · exact hxhead z hzxs hPx
        · exact hyhead z hzy hPy

theorem mergeRuns_undefLast {β : Type u} (P : β → Prop) (le : β → β → Bool)
    (h1 : ∀ a b, P a → le a b = false)
    (h2 : ∀ a b, ¬ P a → P b → le a b = true)
    (xs ys : List β) (hx : UndefLast P xs) (hy : UndefLast P ys) :
    UndefLast P (mergeRuns le xs ys) :=
  mergeFuel_undefLast P le h1 h2 (xs.length + ys.length) xs ys (Nat.le_refl _) hx hy

theorem mergePairs_undefLast {β : Type u} (P : β → Prop) (le : β → β → Bool)
    (h1 : ∀ a b, P a → le a b = false)
    (h2 : ∀ a b, ¬ P a → P b → le a b = true) :
    ∀ ls : List (List β), (∀ r ∈ ls, UndefLast P r) →
      ∀ r ∈ mergePairs le ls, UndefLast P r
  | [], _ => by simp [mergePairs]
  | [a], h => by simpa [mergePairs] using h
  | a :: b :: rest, h => by
      intro r hr
      simp only [mergePairs] at hr
      rcases List.mem_cons.mp hr with rfl | hrrest
      · exact mergeRuns_undefLast P le h1 h2 a b
          (h a (by simp)) (h b (by simp))
      · exact mergePairs_undefLast P le h1 h2 rest
          (fun r' hr' => h r' (by simp [hr'])) r hrrest

theorem mergeAllFuel_undefLast {β : Type u} (P : β → Prop) (le : β → β → Bool)
    (h1 : ∀ a b, P a → le a b = false)
    (h2 : ∀ a b, ¬ P a → P b → le a b = true) :
    ∀ (n : Nat) (ls : List (List β)), (∀ r ∈ ls, UndefLast P r) →
      UndefLast P (mergeAllFuel le n ls)
  | 0, [], _ => by simp [mergeAllFuel, UndefLast]
  | 0, l :: ls, h => by
      simp only [mergeAllFuel]
      exact h l (by simp)
  | _ + 1, [], _ => by simp [mergeAllFuel, UndefLast]
  | _ + 1, [l], h => by
      simp only [mergeAllFuel]
      exact h l (by simp)
  | n + 1, a :: b :: rest, h => by
      simp only [mergeAllFuel]
      exact mergeAllFuel_undefLast P le h1 h2 n (mergePairs le (a :: b :: rest))
        (mergePairs_undefLast P le h1 h2 (a :: b :: rest) h)

theorem stableMergeSort_undefLast {β : Type u} (P : β → Prop) (le : β → β → Bool)
    (h1 : ∀ a b, P a → le a b = false)
    (h2 : ∀ a b, ¬ P a → P b → le a b = true) (l : List β) :
    UndefLast P (stableMergeSort le l) := by
  apply mergeAllFuel_undefLast P le h1 h2
  intro r hr
  obtain ⟨x, _, rfl⟩ := List.mem_map.mp hr
  simp [UndefLast]

end Dashboard

/-- C9: for every product list, sort field and sort direction, the
results-table sort leaves the rows a permutation of the input and places
every row whose sort-field value is undefined after all rows whose value is
defined — in both ascending and descending direction, since the
undefined-value branch of the comparator ignores the direction flag. -/
theorem c9_undefined_values_sort_last {α β : Type} (sortAsc : Bool)
    (gtV ltV : α → α → Bool) (field : β → Option α) (l : List β) :
    (Dashboard.sortProducts sortAsc gtV ltV field l).Perm l ∧
    (Dashboard.sortProducts sortAsc gtV ltV field l).Pairwise
      (fun a b => field a = none → field b = none) := by
  constructor
  · exact Dashboard.stableMergeSort_perm _ l
  · have h1 : ∀ a b : β, field a = none →
        Dashboard.rowLe sortAsc gtV ltV field a b = false := by
      intro a b ha
      simp [Dashboard.rowLe, Dashboard.renderTableCmp, ha]
    have h2 : ∀ a b : β, ¬ field a = none → field b = none →
        Dashboard.rowLe sortAsc gtV ltV field a b = true := by
      intro a b ha hb
      obtain ⟨v, hv⟩ := Option.ne_none_iff_exists'.mp ha
      simp [Dashboard.rowLe, Dashboard.renderTableCmp, hv, hb]
    exact Dashboard.stableMergeSort_undefLast (fun p => field p = none)
      (Dashboard.rowLe sortAsc gtV ltV field) h1 h2 l
